import Mathlib

/-!
Shallow embedding of the `backend-checklist` repository (src/index.js) in Lean 4.

Two cores are modelled:
* the signed-URL capability broker (`signFileUrl` / `verifySignedToken`,
  src/index.js lines 169-192), and
* the Mercado Pago webhook entitlement reconciler
  (`app.post("/mp/webhook")`, `calcVencimentoByPlano`, `PLANS`,
  src/index.js lines 264-392).

JavaScript runtime primitives used by that code (template-literal number
rendering, `String.prototype.split(".")`, `Number(...)`,
`crypto.timingSafeEqual` on utf8 buffers of ASCII strings) are embedded
explicitly below.  `Number(...)` is modelled by the full ECMAScript
string-to-number grammar: whitespace trimming, the empty string as `0`, an
optional sign, decimal literals with optional fraction and exponent,
`Infinity`, and unsigned `0x`/`0o`/`0b` integer literals; `NaN` is `none`.
Values are kept exact (unbounded integers and exact decimal fractions): the
float64 rounding beyond 2^53, the overflow to `Infinity`, and the switch of
integer rendering to exponent form beyond 10^21 are idealized away, the same
unbounded-integer idealization used for timestamps throughout (every value the
program actually handles is a millisecond timestamp far below these bounds).
`crypto.createHmac("sha256", secret)` is external library code; it is modelled
as an abstract parameter `hmac : String → String → String` (secret → payload →
hex digest), and the cryptographic facts a claim needs (digests are dot-free
hex, no collision on the two payloads at hand) appear as explicit hypotheses.
-/

namespace Backend

/-! ## JavaScript string/number primitives -/

/-- Decimal rendering of a natural number, as JavaScript's template literal
`${n}` renders a non-negative integer. -/
def natToDigits (n : Nat) : List Char :=
  if _h : n < 10 then [Nat.digitChar n]
  else natToDigits (n / 10) ++ [Nat.digitChar (n % 10)]
  decreasing_by exact Nat.div_lt_self (by omega) (by omega)

def natToStr (n : Nat) : String := ⟨natToDigits n⟩

/-- Decimal digit character. -/
def isDigitCh (c : Char) : Bool := 48 ≤ c.toNat ∧ c.toNat ≤ 57

/-- Value of a decimal digit list, most significant first. -/
def digitsToNat (ds : List Char) : Nat :=
  ds.foldl (fun acc c => acc * 10 + (c.toNat - 48)) 0

/-- The ECMAScript WhiteSpace and LineTerminator characters trimmed by
`Number(string)`. -/
def jsWhitespace (c : Char) : Bool :=
  let n := c.toNat
  n = 9 ∨ n = 10 ∨ n = 11 ∨ n = 12 ∨ n = 13 ∨ n = 32 ∨ n = 160 ∨ n = 5760 ∨
    (8192 ≤ n ∧ n ≤ 8202) ∨ n = 8232 ∨ n = 8233 ∨ n = 8239 ∨ n = 8287 ∨
    n = 12288 ∨ n = 65279

/-- Trim JS whitespace from both ends. -/
def trimWs (l : List Char) : List Char :=
  ((l.dropWhile jsWhitespace).reverse.dropWhile jsWhitespace).reverse

/-- The value of a JavaScript number as this program can observe it, held
exactly: a non-negative integer, a negative finite value `-(m / 10^k)`, a
positive non-integer `m / 10^k` (with `k ≥ 1` and `10 ∤ m`), or an infinity.
(`NaN` is represented by `Option.none` at the parser.) -/
inductive JsNum where
  | nat (n : Nat)
  | neg (m k : Nat)
  | frac (m k : Nat)
  | inf
  | negInf
  deriving DecidableEq, Repr

/-- Number of trailing zero digits of a positive number (structural recursion
on a fuel bounded by the number itself, which always suffices). -/
def trailing10Aux : Nat → Nat → Nat
  | 0, _ => 0
  | fuel + 1, m => if m % 10 = 0 ∧ m ≠ 0 then trailing10Aux fuel (m / 10) + 1 else 0

def trailing10 (m : Nat) : Nat := trailing10Aux m m

/-- Build the (exact) value `±(M × 10^S)` in normal form: `-0` collapses to
`+0` (indistinguishable here: both falsy, both rendered `"0"`), integers lose
the scale, fractions are reduced so that `k ≥ 1` and `10 ∤ m`. -/
def mkJsNum (negp : Bool) (M : Nat) (S : Int) : JsNum :=
  if M = 0 then .nat 0
  else if 0 ≤ S then
    let v := M * 10 ^ S.toNat
    if negp then .neg v 0 else .nat v
  else
    let k0 := (-S).toNat
    let t := min k0 (trailing10 M)
    let m := M / 10 ^ t
    let k := k0 - t
    if k = 0 then (if negp then .neg m 0 else .nat m)
    else if negp then .neg m k else .frac m k

/-- The exponent suffix of a decimal literal: `""`, or `e`/`E`, an optional
sign and at least one digit, consuming the whole remainder; `none` = parse
failure. -/
def parseExpTail : List Char → Option Int
  | [] => some 0
  | c :: cs =>
    if c = 'e' ∨ c = 'E' then
      match cs with
      | '+' :: ds =>
        if ds ≠ [] ∧ ds.all isDigitCh then some (digitsToNat ds : Int) else none
      | '-' :: ds =>
        if ds ≠ [] ∧ ds.all isDigitCh then some (-(digitsToNat ds : Int)) else none
      | ds =>
        if ds ≠ [] ∧ ds.all isDigitCh then some (digitsToNat ds : Int) else none
    else none

/-- `StrUnsignedDecimalLiteral` without the `Infinity` case:
`Digits ["." Digits?] [Exp]` or `"." Digits [Exp]`, consuming the whole
input; the result is `(M, S)` with value `M × 10^S`. -/
def parseUnsignedDec (l : List Char) : Option (Nat × Int) :=
  let ip := l.takeWhile isDigitCh
  let rest := l.dropWhile isDigitCh
  match rest with
  | '.' :: rest2 =>
    let fp := rest2.takeWhile isDigitCh
    let rest3 := rest2.dropWhile isDigitCh
    if ip.isEmpty && fp.isEmpty then none
    else
      match parseExpTail rest3 with
      | none => none
      | some k => some (digitsToNat (ip ++ fp), k - (fp.length : Int))
  | _ =>
    if ip.isEmpty then none
    else
      match parseExpTail rest with
      | none => none
      | some k => some (digitsToNat ip, k)

def parseRadixAux (radix : Nat) (isD : Char → Bool) (val : Char → Nat) :
    List Char → Nat → Option Nat
  | [], acc => some acc
  | c :: cs, acc =>
    if isD c then parseRadixAux radix isD val cs (acc * radix + val c) else none

/-- A non-empty all-`isD` digit string in the given radix, else `none`. -/
def parseRadixAll (radix : Nat) (isD : Char → Bool) (val : Char → Nat)
    (l : List Char) : Option Nat :=
  match l with
  | [] => none
  | _ => parseRadixAux radix isD val l 0

def isHexDigitCh (c : Char) : Bool :=
  (48 ≤ c.toNat ∧ c.toNat ≤ 57) ∨ (97 ≤ c.toNat ∧ c.toNat ≤ 102) ∨
    (65 ≤ c.toNat ∧ c.toNat ≤ 70)

def hexDigitVal (c : Char) : Nat :=
  if c.toNat ≤ 57 then c.toNat - 48
  else if 97 ≤ c.toNat then c.toNat - 87
  else c.toNat - 55

def isOctDigitCh (c : Char) : Bool := 48 ≤ c.toNat ∧ c.toNat ≤ 55
def isBinDigitCh (c : Char) : Bool := 48 ≤ c.toNat ∧ c.toNat ≤ 49
def decDigitVal (c : Char) : Nat := c.toNat - 48

/-- `[sign] (Infinity | decimal literal)`, the whole remainder. -/
def parseSignedTail (negp : Bool) (l : List Char) : Option JsNum :=
  if l = ['I', 'n', 'f', 'i', 'n', 'i', 't', 'y'] then
    some (if negp then .negInf else .inf)
  else
    match parseUnsignedDec l with
    | none => none
    | some (M, S) => some (mkJsNum negp M S)

/-- `StrNumericLiteral` on a trimmed string: empty is `0`; a sign admits only
the decimal/`Infinity` forms; `0x`/`0o`/`0b` (unsigned only) are radix integer
literals; everything else is the decimal grammar. -/
def jsNumberCore : List Char → Option JsNum
  | [] => some (.nat 0)
  | c :: cs =>
    if c = '+' then parseSignedTail false cs
    else if c = '-' then parseSignedTail true cs
    else
      match cs with
      | c2 :: rest =>
        if c = '0' ∧ (c2 = 'x' ∨ c2 = 'X') then
          (parseRadixAll 16 isHexDigitCh hexDigitVal rest).map JsNum.nat
        else if c = '0' ∧ (c2 = 'o' ∨ c2 = 'O') then
          (parseRadixAll 8 isOctDigitCh decDigitVal rest).map JsNum.nat
        else if c = '0' ∧ (c2 = 'b' ∨ c2 = 'B') then
          (parseRadixAll 2 isBinDigitCh decDigitVal rest).map JsNum.nat
        else parseSignedTail false (c :: c2 :: rest)
      | [] => parseSignedTail false [c]

/-- JavaScript `Number(s)` (`none` = `NaN`), exact-value idealization of
float64 as described in the header. -/
def jsNumber (s : String) : Option JsNum :=
  jsNumberCore (trimWs s.data)

/-- JS falsiness of a number: exactly `0` (and `-0`, normalized to it);
`NaN`, the other falsy number, is `none` at the parser. -/
def jsFalsyNum : JsNum → Bool
  | .nat 0 => true
  | _ => false

/-- `now > v` for `Date.now() = now : Nat`: false against `+Infinity`, true
against every negative value, exact comparison otherwise. -/
def jsGtNum (now : Nat) : JsNum → Bool
  | .nat n => decide (now > n)
  | .neg _ _ => true
  | .frac m k => decide (now * 10 ^ k > m)
  | .inf => false
  | .negInf => true

def zerosL (n : Nat) : List Char := List.replicate n '0'

/-- Canonical decimal rendering of the positive value `m / 10^k`
(`Number::toString`, base 10, for a value that is exactly a finite decimal):
plain digits for integers (exact-digit idealization above 10^21, see header),
a decimal point when at least one digit precedes it, a `0.00…` form down to
`1e-6`, and the exponent form below that. -/
def decStrOf (m k : Nat) : List Char :=
  let s := natToDigits m
  let klen := s.length
  if k = 0 then s
  else if k < klen then s.take (klen - k) ++ '.' :: s.drop (klen - k)
  else if k ≤ klen + 5 then '0' :: '.' :: (zerosL (k - klen) ++ s)
  else
    match s with
    | [] => []
    | d :: [] => d :: 'e' :: '-' :: natToDigits (k - klen + 1)
    | d :: ds => d :: '.' :: (ds ++ 'e' :: '-' :: natToDigits (k - klen + 1))

/-- Template-literal rendering `${v}` of a JS number. -/
def jsNumToStr : JsNum → String
  | .nat n => natToStr n
  | .neg m k => ⟨'-' :: decStrOf m k⟩
  | .frac m k => ⟨decStrOf m k⟩
  | .inf => "Infinity"
  | .negInf => "-Infinity"

/-- JavaScript `s.split(".")` on the character list. -/
def splitDotsL : List Char → List (List Char)
  | [] => [[]]
  | c :: cs =>
    if c = '.' then [] :: splitDotsL cs
    else
      match splitDotsL cs with
      | [] => [[c]]
      | s :: rest => (c :: s) :: rest

/-- JavaScript `token.split(".")`. -/
def jsSplitDot (s : String) : List String :=
  (splitDotsL s.data).map fun l => ⟨l⟩

/-! ## Capability broker (src/index.js 169-192) -/

/-- `signFileUrl(fileId, expiresAtMs)`:
`payload = fileId + "." + expiresAtMs`;
returns `expiresAtMs + "." + hmacHex(secret, payload)`. -/
def signFileUrl (hmac : String → String → String) (secret : String)
    (fileId : String) (expiresAtMs : Nat) : String :=
  let payload := fileId ++ "." ++ natToStr expiresAtMs
  let sig := hmac secret payload
  natToStr expiresAtMs ++ "." ++ sig

/-- The body of `verifySignedToken` past the split:
`const [expStr, sig] = token.split(".")` destructures the first two segments
(`sig` is `undefined` when fewer than two exist; `split` never yields zero
segments).  `crypto.timingSafeEqual` throws on length mismatch, which the
`try/catch` turns into `false`; on equal lengths it is bytewise equality. -/
def verifyParts (hmac : String → String → String) (sec : String) (now : Nat)
    (fileId : String) : List String → Bool
  | expStr :: sig :: _ =>
    (match jsNumber expStr with
     | none => false                            -- Number gave NaN: `!exp`
     | some v =>
       if jsFalsyNum v ∨ sig = "" then false    -- `!exp || !sig`
       else if jsGtNum now v then false         -- `Date.now() > exp`
       else
         let payload := fileId ++ "." ++ jsNumToStr v
         let expected := hmac sec payload
         if sig.data.length = expected.data.length then sig == expected
         else false)
  | _ => false                                  -- `sig` undefined: `!sig`

/-- `verifySignedToken(fileId, token)`; `secret = none` models an unset
`SIGNING_SECRET`, `now` is `Date.now()` in ms. -/
def verifySignedToken (hmac : String → String → String) (secret : Option String)
    (now : Nat) (fileId token : String) : Bool :=
  match secret with
  | none => false                          -- `if (!SIGNING_SECRET) return false`
  | some sec =>
    if token = "" then false               -- `if (!token) return false`
    else verifyParts hmac sec now fileId (jsSplitDot token)

/-! ## Plan catalog and due-date computation (src/index.js 264-278) -/

/-- A calendar instant as JavaScript `Date` is used here: `setMonth(getMonth()+k)`
advances the absolute month index and leaves the day-of-month and time-of-day
(carried opaquely in `rest`) unchanged.  (JS day-of-month overflow at short
months is not exercised by any claim.) -/
structure JDate where
  monthIndex : Nat
  rest : Nat
  deriving DecidableEq, Repr

/-- `venc.setMonth(venc.getMonth() + months)`. -/
def JDate.addMonths (d : JDate) (k : Nat) : JDate :=
  { d with monthIndex := d.monthIndex + k }

/-- One entry of `PLANS`; `price` in BRL cents (24.99 ↦ 2499). -/
structure PlanCfg where
  label : String
  priceCents : Nat
  months : Nat
  acessos : Nat
  deriving DecidableEq, Repr

/-- `const PLANS = { mensal: …, trimestral: …, anual: …, anual_plus: … }`. -/
def PLANS : List (String × PlanCfg) :=
  [ ("mensal",     ⟨"Mensal",     2499,  1,  1⟩),
    ("trimestral", ⟨"Trimestral", 6499,  3,  1⟩),
    ("anual",      ⟨"Anual",      14999, 12, 1⟩),
    ("anual_plus", ⟨"Anual Plus", 18999, 12, 2⟩) ]

/-- `String(x)` for a possibly-`undefined` string (JS renders `undefined` as
`"undefined"`). -/
def jsString : Option String → String
  | none => "undefined"
  | some s => s

/-- `x || "mensal"` for a possibly-`undefined` string (`undefined` and `""`
are falsy). -/
def jsOrMensal : Option String → String
  | none => "mensal"
  | some s => if s = "" then "mensal" else s

/-- `calcVencimentoByPlano(planoKey)`: catalog lookup with fallback to
`PLANS.mensal` for unknown keys, due date `now + cfg.months` months
(`cfg.months` is nonzero in every catalog entry, so `Number(cfg.months || 1)`
is `cfg.months`; likewise `cfg.acessos`). -/
def calcVencimentoByPlano (planoKey : String) (now : JDate) : JDate × PlanCfg :=
  let cfg := ((PLANS.lookup planoKey).getD ⟨"Mensal", 2499, 1, 1⟩)
  (now.addMonths cfg.months, cfg)

/-! ## Firestore user documents and merge writes -/

/-- `pagamento` audit subobject written by the webhook (all four fields are
always set, so deep-vs-shallow merge of the nested map is immaterial);
`atualizadoEm` is the server timestamp of the write. -/
structure Pagamento where
  gateway : String
  paymentId : String
  status : String
  atualizadoEm : JDate
  deriving DecidableEq, Repr

/-- A `usuarios/{uid}` document, restricted to the fields the webhook touches;
`outros` carries every other field of the document opaquely (e.g.
`rolePortal`), untouched by a merge of this patch. -/
structure UserDoc where
  autorizado : Option Bool
  plano : Option String
  vencimento : Option JDate
  acessosPermitidos : Option Nat
  pagamento : Option Pagamento
  outros : List (String × String)
  deriving DecidableEq, Repr

/-- The document a `set(patch, {merge:true})` creates when none exists. -/
def UserDoc.empty : UserDoc := ⟨none, none, none, none, none, []⟩

/-- The patch the webhook builds (`none` = field absent from the patch). -/
structure Patch where
  autorizado : Option Bool
  plano : Option String
  vencimento : Option JDate
  acessosPermitidos : Option Nat
  pagamento : Option Pagamento
  deriving DecidableEq, Repr

/-- Firestore `ref.set(patch, { merge: true })`: fields in the patch overwrite,
fields absent from the patch survive; a missing document is created. -/
def applyMerge (old : Option UserDoc) (p : Patch) : UserDoc :=
  let base := old.getD UserDoc.empty
  { autorizado := p.autorizado <|> base.autorizado
    plano := p.plano <|> base.plano
    vencimento := p.vencimento <|> base.vencimento
    acessosPermitidos := p.acessosPermitidos <|> base.acessosPermitidos
    pagamento := p.pagamento <|> base.pagamento
    outros := base.outros }

/-- The `usuarios` collection. -/
def Store := String → Option UserDoc

/-! ## Webhook handler (src/index.js 339-392) -/

/-- Result of `paymentApi.get({id})`: the authoritative status and the
`metadata` placed at preference creation (`uid`, `plano`); a field is `none`
when absent (`undefined`). -/
structure Payment where
  status : Option String
  metaUid : Option String
  metaPlano : Option String
  deriving DecidableEq, Repr

/-- JS falsiness of a possibly-`undefined` string (`undefined` and `""`). -/
def jsFalsyStr : Option String → Bool
  | none => true
  | some s => s = ""

/-- The patch built by the webhook for an authoritative payment `pay` with
reference `dataId`, at server time `now`: the `pagamento` audit subobject is
always present (`status: String(status || "")`); the four entitlement fields
are set only when `status === "approved"`. -/
def webhookPatch (dataId : String) (pay : Payment) (now : JDate) : Patch :=
  let (venc, cfg) := calcVencimentoByPlano (jsString pay.metaPlano) now
  let approved := pay.status = some "approved"
  { autorizado := if approved then some true else none
    plano := if approved then some (jsOrMensal pay.metaPlano) else none
    vencimento := if approved then some venc else none
    acessosPermitidos := if approved then some cfg.acessos else none
    pagamento := some
      { gateway := "MERCADO_PAGO"
        paymentId := dataId
        status := (pay.status.getD "")
        atualizadoEm := now } }

/-- `app.post("/mp/webhook")` as a transformer of the `usuarios` collection.
`mpConfigured` is whether `MP_ACCESS_TOKEN` is set (`mustHaveMP`); `rtype` and
`dataId` are the notification's `type` and `data.id`; `pay = none` models a
provider fetch that throws (caught: no write) for an unknown reference.
The handler returns without writing when the type is not `"payment"`, the
reference is falsy, or `metadata.uid` is falsy; otherwise it merge-writes
`webhookPatch` at document `String(uid)` — it never reads the document first. -/
def mpWebhook (mpConfigured : Bool) (rtype dataId : Option String)
    (pay : Option Payment) (now : JDate) (store : Store) : Store :=
  if !mpConfigured then store
  else if rtype ≠ some "payment" ∨ jsFalsyStr dataId then store
  else
    match pay with
    | none => store                  -- fetch threw; catch logs, no write
    | some p =>
      if jsFalsyStr p.metaUid then store   -- `if (!uid) return`
      else
        let uid := jsString p.metaUid
        let patch := webhookPatch (jsString dataId) p now
        fun u => if u = uid then some (applyMerge (store u) patch) else store u

/-! ## Lemmas about the embedded JS primitives -/

theorem splitDotsL_ne_nil (l : List Char) : splitDotsL l ≠ [] := by
  induction l with
  | nil => simp [splitDotsL]
  | cons c cs ih =>
    simp only [splitDotsL]
    split
    · simp
    · cases h : splitDotsL cs with
      | nil => simp
      | cons s rest => simp

theorem splitDotsL_append_dot (x y : List Char) :
    splitDotsL (x ++ '.' :: y) = splitDotsL x ++ splitDotsL y := by
  induction x with
  | nil =>
    simp only [List.nil_append, splitDotsL, if_pos rfl]
    rfl
  | cons c cs ih =>
    by_cases hc : c = '.'
    · simp [hc, splitDotsL, ih]
    · cases h : splitDotsL cs with
      | nil => exact absurd h (splitDotsL_ne_nil cs)
      | cons s rest => simp [splitDotsL, hc, ih, h]

theorem splitDotsL_no_dot (l : List Char) (h : '.' ∉ l) : splitDotsL l = [l] := by
  induction l with
  | nil => rfl
  | cons c cs ih =>
    simp only [List.mem_cons, not_or] at h
    simp only [splitDotsL, if_neg (Ne.symm h.1 : c ≠ '.'), ih h.2]

theorem natToDigits_all_digits (n : Nat) :
    ∀ c ∈ natToDigits n, ∃ d, d < 10 ∧ c = Nat.digitChar d := by
  induction n using Nat.strong_induction_on with
  | _ n ih =>
    intro c hc
    by_cases h : n < 10
    · rw [natToDigits, dif_pos h] at hc
      simp only [List.mem_singleton] at hc
      exact ⟨n, h, hc⟩
    · rw [natToDigits, dif_neg h] at hc
      rcases List.mem_append.mp hc with h1 | h2
      · exact ih (n / 10) (Nat.div_lt_self (by omega) (by omega)) c h1
      · simp only [List.mem_singleton] at h2
        exact ⟨n % 10, Nat.mod_lt _ (by omega), h2⟩

theorem dot_not_mem_natToDigits (n : Nat) : '.' ∉ natToDigits n := by
  intro hmem
  obtain ⟨d, hd, hc⟩ := natToDigits_all_digits n '.' hmem
  revert hc
  have : ∀ d < 10, Nat.digitChar d ≠ '.' := by decide
  exact fun hc => this d hd hc.symm

theorem natToDigits_ne_nil (n : Nat) : natToDigits n ≠ [] := by
  rw [natToDigits]
  split
  · simp
  · simp

theorem isDigitCh_digitChar (d : Nat) (hd : d < 10) :
    isDigitCh (Nat.digitChar d) = true := by
  revert hd
  revert d
  decide

theorem natToDigits_isDigit (n : Nat) :
    ∀ c ∈ natToDigits n, isDigitCh c = true := by
  intro c hc
  obtain ⟨d, hd, rfl⟩ := natToDigits_all_digits n c hc
  exact isDigitCh_digitChar d hd

theorem digitChar_toNat (d : Nat) (hd : d < 10) :
    (Nat.digitChar d).toNat = 48 + d := by
  revert hd
  revert d
  decide

theorem foldl_natToDigits (n : Nat) :
    ∀ acc, (natToDigits n).foldl (fun acc c => acc * 10 + (c.toNat - 48)) acc =
      acc * 10 ^ (natToDigits n).length + n := by
  induction n using Nat.strong_induction_on with
  | _ n ih =>
    intro acc
    by_cases h : n < 10
    · rw [natToDigits, dif_pos h]
      simp only [List.foldl_cons, List.foldl_nil, List.length_singleton,
        digitChar_toNat n h]
      ring_nf
      omega
    · rw [natToDigits, dif_neg h]
      rw [List.foldl_append]
      rw [ih (n / 10) (Nat.div_lt_self (by omega) (by omega)) acc]
      simp only [List.foldl_cons, List.foldl_nil, List.length_append,
        List.length_singleton, digitChar_toNat (n % 10) (Nat.mod_lt _ (by omega))]
      rw [pow_succ, ← mul_assoc]
      omega

theorem digitsToNat_natToDigits (n : Nat) : digitsToNat (natToDigits n) = n := by
  unfold digitsToNat
  rw [foldl_natToDigits n 0]
  simp

theorem takeWhile_all {p : Char → Bool} (l : List Char)
    (h : ∀ c ∈ l, p c = true) : l.takeWhile p = l := by
  induction l with
  | nil => rfl
  | cons c cs ih =>
    rw [List.takeWhile_cons, h c (by simp), if_pos rfl,
      ih fun d hd => h d (by simp [hd])]

theorem dropWhile_all {p : Char → Bool} (l : List Char)
    (h : ∀ c ∈ l, p c = true) : l.dropWhile p = [] := by
  induction l with
  | nil => rfl
  | cons c cs ih =>
    rw [List.dropWhile_cons, h c (by simp), if_pos rfl]
    exact ih fun d hd => h d (by simp [hd])

theorem digit_not_ws (c : Char) (h : isDigitCh c = true) :
    jsWhitespace c = false := by
  simp only [isDigitCh, decide_eq_true_eq] at h
  simp only [jsWhitespace, decide_eq_false_iff_not]
  omega

theorem trimWs_of_no_ws (l : List Char)
    (h : ∀ c ∈ l, jsWhitespace c = false) : trimWs l = l := by
  unfold trimWs
  have h1 : l.dropWhile jsWhitespace = l := by
    cases l with
    | nil => rfl
    | cons c cs =>
      rw [List.dropWhile_cons, h c (by simp)]
      simp
  rw [h1]
  cases hrev : l.reverse with
  | nil =>
    have : l = [] := by simpa using congrArg List.reverse hrev
    simp [this]
  | cons c cs =>
    have hc : jsWhitespace c = false := by
      refine h c ?_
      rw [← List.mem_reverse, hrev]
      simp
    rw [List.dropWhile_cons, hc]
    simp only [Bool.false_eq_true, if_false]
    rw [← hrev, List.reverse_reverse]

theorem mkJsNum_int (n : Nat) : mkJsNum false n 0 = .nat n := by
  unfold mkJsNum
  by_cases h : n = 0
  · simp [h]
  · rw [if_neg h, if_pos (le_refl (0 : Int))]
    simp

theorem parseSignedTail_digits (l : List Char) (hne : l ≠ [])
    (hall : ∀ c ∈ l, isDigitCh c = true) :
    parseSignedTail false l = some (mkJsNum false (digitsToNat l) 0) := by
  unfold parseSignedTail
  rw [if_neg ?hinf]
  case hinf =>
    intro hl
    have : isDigitCh 'I' = true := by
      refine hall 'I' ?_
      rw [hl]
      simp
    exact absurd this (by decide)
  unfold parseUnsignedDec
  rw [takeWhile_all l hall, dropWhile_all l hall]
  simp only
  rw [if_neg (by simpa [List.isEmpty_iff] using hne)]
  rfl

theorem jsNumberCore_digits (l : List Char) (hne : l ≠ [])
    (hall : ∀ c ∈ l, isDigitCh c = true) :
    jsNumberCore l = parseSignedTail false l := by
  cases l with
  | nil => exact absurd rfl hne
  | cons c cs =>
    have hc : isDigitCh c = true := hall c (by simp)
    cases cs with
    | nil =>
      show (if c = '+' then parseSignedTail false []
            else if c = '-' then parseSignedTail true []
            else parseSignedTail false [c]) = parseSignedTail false [c]
      rw [if_neg (by rintro rfl; exact absurd hc (by decide)),
        if_neg (by rintro rfl; exact absurd hc (by decide))]
    | cons c2 rest =>
      have hc2 : isDigitCh c2 = true := hall c2 (by simp)
      show (if c = '+' then parseSignedTail false (c2 :: rest)
            else if c = '-' then parseSignedTail true (c2 :: rest)
            else if c = '0' ∧ (c2 = 'x' ∨ c2 = 'X') then
              (parseRadixAll 16 isHexDigitCh hexDigitVal rest).map JsNum.nat
            else if c = '0' ∧ (c2 = 'o' ∨ c2 = 'O') then
              (parseRadixAll 8 isOctDigitCh decDigitVal rest).map JsNum.nat
            else if c = '0' ∧ (c2 = 'b' ∨ c2 = 'B') then
              (parseRadixAll 2 isBinDigitCh decDigitVal rest).map JsNum.nat
            else parseSignedTail false (c :: c2 :: rest)) =
          parseSignedTail false (c :: c2 :: rest)
      rw [if_neg (by rintro rfl; exact absurd hc (by decide)),
        if_neg (by rintro rfl; exact absurd hc (by decide)),
        if_neg (by rintro ⟨_, h | h⟩ <;> (subst h; exact absurd hc2 (by decide))),
        if_neg (by rintro ⟨_, h | h⟩ <;> (subst h; exact absurd hc2 (by decide))),
        if_neg (by rintro ⟨_, h | h⟩ <;> (subst h; exact absurd hc2 (by decide)))]

theorem jsNumber_natToStr (n : Nat) : jsNumber (natToStr n) = some (.nat n) := by
  unfold jsNumber
  have hdata : (natToStr n).data = natToDigits n := rfl
  rw [hdata,
    trimWs_of_no_ws _ (fun c hc => digit_not_ws c (natToDigits_isDigit n c hc)),
    jsNumberCore_digits _ (natToDigits_ne_nil n) (natToDigits_isDigit n),
    parseSignedTail_digits _ (natToDigits_ne_nil n) (natToDigits_isDigit n),
    digitsToNat_natToDigits, mkJsNum_int]

theorem jsFalsyNum_nat (n : Nat) : jsFalsyNum (.nat n) = decide (n = 0) := by
  cases n <;> rfl

theorem data_append_dot (a b : String) :
    (a ++ "." ++ b).data = a.data ++ '.' :: b.data := by
  simp [String.data_append]

theorem jsSplitDot_pair (a b : String) (ha : '.' ∉ a.data) (hb : '.' ∉ b.data) :
    jsSplitDot (a ++ "." ++ b) = [a, b] := by
  obtain ⟨la⟩ := a
  obtain ⟨lb⟩ := b
  unfold jsSplitDot
  rw [data_append_dot, splitDotsL_append_dot, splitDotsL_no_dot _ ha,
    splitDotsL_no_dot _ hb]
  rfl

theorem append_dot_ne_empty (a b : String) : a ++ "." ++ b ≠ "" := by
  intro h
  have : (a ++ "." ++ b).data = ([] : List Char) := by rw [h]
  rw [data_append_dot] at this
  exact absurd this (by simp)

theorem natToStr_data (n : Nat) : (natToStr n).data = natToDigits n := rfl

/-- C2: a freshly issued token round-trips through verification, and the
verdict is exactly the clock comparison `now ≤ expiresAt`. -/
theorem verify_signFileUrl_eq_clock (hmac : String → String → String)
    (sec fileId : String) (issueMs ttl now : Nat) (httl : 0 < ttl)
    (hdot : '.' ∉ (hmac sec (fileId ++ "." ++ natToStr (issueMs + ttl))).data)
    (hne : hmac sec (fileId ++ "." ++ natToStr (issueMs + ttl)) ≠ "") :
    verifySignedToken hmac (some sec) now fileId
        (signFileUrl hmac sec fileId (issueMs + ttl)) =
      decide (now ≤ issueMs + ttl) := by
  set E := issueMs + ttl with hE
  set S := hmac sec (fileId ++ "." ++ natToStr E) with hS
  have htok : signFileUrl hmac sec fileId E = natToStr E ++ "." ++ S := rfl
  rw [htok]
  show (if natToStr E ++ "." ++ S = "" then false
        else verifyParts hmac sec now fileId (jsSplitDot (natToStr E ++ "." ++ S))) =
      decide (now ≤ E)
  rw [if_neg (append_dot_ne_empty _ _)]
  rw [jsSplitDot_pair _ _ (by rw [natToStr_data]; exact dot_not_mem_natToDigits E) hdot]
  simp only [verifyParts, jsNumber_natToStr]
  rw [if_neg (by push_neg; refine ⟨?_, hne⟩; rw [jsFalsyNum_nat]; simp; omega)]
  by_cases hnow : now > E
  · rw [if_pos (show jsGtNum now (JsNum.nat E) = true from decide_eq_true hnow)]
    simp [Nat.not_le.mpr hnow]
  · rw [if_neg (show ¬ jsGtNum now (JsNum.nat E) = true from by
      simp only [jsGtNum, decide_eq_true_eq]; omega)]
    simp only [jsNumToStr]
    rw [if_pos trivial]
    simp [Nat.not_lt.mp hnow]

/-- Witness for C2 at a concrete instantiation of the abstract HMAC. -/
theorem verify_signFileUrl_eq_clock_witness :
    verifySignedToken (fun _ _ => "ab") (some "s3cr3t") 5 "fid"
        (signFileUrl (fun _ _ => "ab") "s3cr3t" "fid" (3 + 4)) =
      decide (5 ≤ 3 + 4) :=
  verify_signFileUrl_eq_clock (fun _ _ => "ab") "s3cr3t" "fid" 3 4 5
    (by decide) (by decide) (by decide)

/-- Characterization of a successful verification of a two-segment token. -/
theorem verifyParts_true_iff (hmac : String → String → String) (sec : String)
    (now : Nat) (fid : String) (e s : String) (rest : List String) :
    verifyParts hmac sec now fid (e :: s :: rest) = true ↔
      ∃ v, jsNumber e = some v ∧ jsFalsyNum v = false ∧ s ≠ "" ∧
        jsGtNum now v = false ∧ s = hmac sec (fid ++ "." ++ jsNumToStr v) := by
  simp only [verifyParts]
  cases h : jsNumber e with
  | none => simp
  | some v =>
    simp only
    constructor
    · intro ht
      by_cases h0 : jsFalsyNum v = true ∨ s = ""
      · rw [if_pos h0] at ht
        exact absurd ht (by simp)
      · rw [if_neg h0] at ht
        push_neg at h0
        by_cases hn : jsGtNum now v = true
        · rw [if_pos hn] at ht
          exact absurd ht (by simp)
        · rw [if_neg hn] at ht
          by_cases hl : s.data.length = (hmac sec (fid ++ "." ++ jsNumToStr v)).data.length
          · rw [if_pos hl] at ht
            exact ⟨v, rfl, Bool.eq_false_iff.mpr h0.1, h0.2,
              Bool.eq_false_iff.mpr hn, eq_of_beq ht⟩
          · rw [if_neg hl] at ht
            exact absurd ht (by simp)
    · rintro ⟨v', hv, hf, hs, hg, hsig⟩
      obtain rfl : v' = v := (Option.some.inj hv).symm
      rw [if_neg (by push_neg; exact ⟨by simp [hf], hs⟩), if_neg (by simp [hg]),
        hsig, if_pos rfl]
      simp

/-- C3: a token issued for one file fails verification against another file,
given that the HMAC digests of the two payloads in play differ (no collision). -/
theorem verify_wrong_resource_false (hmac : String → String → String)
    (sec fid1 fid2 : String) (expMs now : Nat) (_hneq : fid1 ≠ fid2)
    (hdot : '.' ∉ (hmac sec (fid1 ++ "." ++ natToStr expMs)).data)
    (hcoll : hmac sec (fid2 ++ "." ++ natToStr expMs) ≠
             hmac sec (fid1 ++ "." ++ natToStr expMs)) :
    verifySignedToken hmac (some sec) now fid2
      (signFileUrl hmac sec fid1 expMs) = false := by
  set S := hmac sec (fid1 ++ "." ++ natToStr expMs) with hS
  have htok : signFileUrl hmac sec fid1 expMs = natToStr expMs ++ "." ++ S := rfl
  rw [htok]
  show (if natToStr expMs ++ "." ++ S = "" then false
        else verifyParts hmac sec now fid2 (jsSplitDot (natToStr expMs ++ "." ++ S))) =
      false
  rw [if_neg (append_dot_ne_empty _ _),
    jsSplitDot_pair _ _ (by rw [natToStr_data]; exact dot_not_mem_natToDigits expMs) hdot]
  rw [Bool.eq_false_iff]
  intro ht
  obtain ⟨v, hv, _, _, _, hsig⟩ :=
    (verifyParts_true_iff hmac sec now fid2 (natToStr expMs) S []).mp ht
  obtain rfl : JsNum.nat expMs = v :=
    Option.some.inj ((jsNumber_natToStr expMs).symm.trans hv)
  exact hcoll (hsig.symm)

/-- Witness for C3: a concrete dot-free HMAC stand-in distinguishing the two
payloads. -/
theorem verify_wrong_resource_false_witness :
    verifySignedToken (fun _ p => if p.data.get? 1 = some '1' then "aa" else "bb")
      (some "k") 2 "f2"
      (signFileUrl (fun _ p => if p.data.get? 1 = some '1' then "aa" else "bb")
        "k" "f1" 5) = false :=
  verify_wrong_resource_false
    (fun _ p => if p.data.get? 1 = some '1' then "aa" else "bb")
    "k" "f1" "f2" 5 2 (by decide) (by decide) (by decide)

theorem dot_not_mem_set (l : List Char) (i : Nat) (c : Char) (hc : c ≠ '.')
    (hl : '.' ∉ l) : '.' ∉ l.set i c := by
  intro hmem
  rcases List.mem_or_eq_of_mem_set hmem with h | h
  · exact hl h
  · exact hc h.symm

theorem set_ne_of_get_ne (l : List Char) (i : Nat) (c : Char)
    (hi : i < l.length) (hc : c ≠ l.get ⟨i, hi⟩) : l.set i c ≠ l := by
  intro h
  apply hc
  have h1 : (l.set i c)[i]? = some c := List.getElem?_set_self hi
  rw [h] at h1
  have h2 : l[i]? = some (l.get ⟨i, hi⟩) := List.getElem_eq_iff.mp rfl
  exact Option.some.inj (h1.symm.trans h2)

/-- C9: flipping one signature character of a token that verifies, to any
different character, makes verification fail.  (When the new character is not
a dot the recomputed digest no longer matches; when it is a dot the parsed
signature segment becomes a strict prefix and already the buffer lengths
differ.) -/
theorem verify_tampered_sig_false (hmac : String → String → String)
    (sec fid : String) (now : Nat) (expStr sig : String) (i : Nat) (c : Char)
    (hdotE : '.' ∉ expStr.data) (hdotS : '.' ∉ sig.data)
    (hi : i < sig.data.length)
    (hc : c ≠ sig.data.get ⟨i, hi⟩)
    (hvalid : verifySignedToken hmac (some sec) now fid (expStr ++ "." ++ sig) = true) :
    verifySignedToken hmac (some sec) now fid
      (expStr ++ "." ++ (⟨sig.data.set i c⟩ : String)) = false := by
  have hvp : verifyParts hmac sec now fid [expStr, sig] = true := by
    have h1 : verifySignedToken hmac (some sec) now fid (expStr ++ "." ++ sig) =
        (if expStr ++ "." ++ sig = "" then false
         else verifyParts hmac sec now fid (jsSplitDot (expStr ++ "." ++ sig))) := rfl
    rw [h1, if_neg (append_dot_ne_empty _ _), jsSplitDot_pair _ _ hdotE hdotS] at hvalid
    exact hvalid
  obtain ⟨exp, heq, h0, hs, hnow, hsig⟩ :=
    (verifyParts_true_iff hmac sec now fid expStr sig []).mp hvp
  by_cases hcdot : c = '.'
  · subst hcdot
    have hset : sig.data.set i '.' = sig.data.take i ++ '.' :: sig.data.drop (i + 1) :=
      List.set_eq_take_cons_drop _ hi
    have htake : '.' ∉ sig.data.take i := fun hmem => hdotS (List.mem_of_mem_take hmem)
    show (if expStr ++ "." ++ (⟨sig.data.set i '.'⟩ : String) = "" then false
          else verifyParts hmac sec now fid
            (jsSplitDot (expStr ++ "." ++ (⟨sig.data.set i '.'⟩ : String)))) = false
    rw [if_neg (append_dot_ne_empty _ _)]
    have hsplit : jsSplitDot (expStr ++ "." ++ (⟨sig.data.set i '.'⟩ : String)) =
        expStr :: (⟨sig.data.take i⟩ : String) ::
          (splitDotsL (sig.data.drop (i + 1))).map (fun l => (⟨l⟩ : String)) := by
      unfold jsSplitDot
      rw [data_append_dot]
      show (splitDotsL (expStr.data ++ '.' :: sig.data.set i '.')).map _ = _
      rw [hset, splitDotsL_append_dot, splitDotsL_no_dot _ hdotE,
        splitDotsL_append_dot, splitDotsL_no_dot _ htake]
      obtain ⟨le⟩ := expStr
      rfl
    rw [hsplit]
    cases i with
    | zero =>
      show verifyParts hmac sec now fid (expStr :: "" :: _) = false
      simp [verifyParts, heq]
    | succ n =>
      rw [Bool.eq_false_iff]
      intro ht
      obtain ⟨exp2, heq2, _, _, _, hsig2⟩ :=
        (verifyParts_true_iff hmac sec now fid expStr _ _).mp ht
      obtain rfl : exp2 = exp := Option.some.inj (heq2.symm.trans heq)
      have hlen : (sig.data.take (n + 1)).length = sig.data.length := by
        have := congrArg (fun t : String => t.data.length) (hsig2.trans hsig.symm)
        simpa using this
      rw [List.length_take] at hlen
      omega
  · set sig' : String := ⟨sig.data.set i c⟩ with hsig'
    show (if expStr ++ "." ++ sig' = "" then false
          else verifyParts hmac sec now fid (jsSplitDot (expStr ++ "." ++ sig'))) = false
    rw [if_neg (append_dot_ne_empty _ _),
      jsSplitDot_pair _ _ hdotE
        (by rw [hsig']; exact dot_not_mem_set _ _ _ hcdot hdotS)]
    rw [Bool.eq_false_iff]
    intro ht
    obtain ⟨exp2, heq2, _, _, _, hsig2⟩ :=
      (verifyParts_true_iff hmac sec now fid expStr sig' []).mp ht
    obtain rfl : exp2 = exp := Option.some.inj (heq2.symm.trans heq)
    have : sig' = sig := hsig2.trans hsig.symm
    have hdata : sig.data.set i c = sig.data := congrArg String.data this
    exact set_ne_of_get_ne sig.data i c hi hc hdata

/-- Witness for C9: a concrete valid token `"5.ab"` with its first signature
character flipped to the different hex character `'b'`. -/
theorem verify_tampered_sig_false_witness :
    verifySignedToken (fun _ _ => "ab") (some "k") 3 "fid"
      ("5" ++ "." ++ (⟨("ab" : String).data.set 0 'b'⟩ : String)) = false :=
  verify_tampered_sig_false (fun _ _ => "ab") "k" "fid" 3 "5" "ab" 0 'b'
    (by decide) (by decide) (by decide) (by decide) (by decide)

/-- `split(".")` distributes over concatenation with a `"."` in between. -/
theorem jsSplitDot_append (a b : String) :
    jsSplitDot (a ++ "." ++ b) = jsSplitDot a ++ jsSplitDot b := by
  unfold jsSplitDot
  rw [data_append_dot, splitDotsL_append_dot, List.map_append]

theorem jsSplitDot_ne_nil (s : String) : jsSplitDot s ≠ [] := by
  unfold jsSplitDot
  intro h
  exact splitDotsL_ne_nil s.data (List.map_eq_nil_iff.mp h)

/-- C10: token parsing looks only at the first two dot-separated segments, so
appending `"."` plus anything to a verifying token still verifies. -/
theorem verify_append_garbage (hmac : String → String → String)
    (secret : Option String) (now : Nat) (fid t junk : String)
    (hvalid : verifySignedToken hmac secret now fid t = true) :
    verifySignedToken hmac secret now fid (t ++ "." ++ junk) = true := by
  cases secret with
  | none => exact absurd hvalid (by simp [verifySignedToken])
  | some sec =>
    have h1 : verifySignedToken hmac (some sec) now fid t =
        (if t = "" then false
         else verifyParts hmac sec now fid (jsSplitDot t)) := rfl
    rw [h1] at hvalid
    by_cases ht : t = ""
    · rw [if_pos ht] at hvalid
      exact absurd hvalid (by simp)
    · rw [if_neg ht] at hvalid
      show (if t ++ "." ++ junk = "" then false
            else verifyParts hmac sec now fid (jsSplitDot (t ++ "." ++ junk))) = true
      rw [if_neg (append_dot_ne_empty _ _), jsSplitDot_append]
      cases hp : jsSplitDot t with
      | nil => exact absurd hp (jsSplitDot_ne_nil t)
      | cons e rest =>
        cases rest with
        | nil =>
          rw [hp] at hvalid
          exact absurd hvalid (by simp [verifyParts])
        | cons s rest' =>
          rw [hp] at hvalid
          have hinv : verifyParts hmac sec now fid ((e :: s :: rest') ++ jsSplitDot junk) =
              verifyParts hmac sec now fid (e :: s :: rest') := rfl
          rw [hinv]
          exact hvalid

/-- Witness for C10: the concrete valid token `"5.h"` with `".junk"` appended. -/
theorem verify_append_garbage_witness :
    verifySignedToken (fun _ _ => "h") (some "k") 3 "fid"
      ("5.h" ++ "." ++ "junk") = true :=
  verify_append_garbage (fun _ _ => "h") (some "k") 3 "fid" "5.h" "junk"
    (by decide)

/-! ## Webhook lemmas -/

theorem orElse_orElse_self {α : Type} (a b : Option α) :
    (a <|> (a <|> b)) = (a <|> b) := by
  cases a <;> rfl

/-- Remerging the very same patch changes nothing: every patch field is an
absolute value, not a delta. -/
theorem applyMerge_idem (old : Option UserDoc) (p : Patch) :
    applyMerge (some (applyMerge old p)) p = applyMerge old p := by
  unfold applyMerge
  simp only [Option.getD_some]
  exact UserDoc.mk.injEq .. ▸ by
    simp [orElse_orElse_self]

/-- Unfolding of the webhook on an enabled gateway. -/
theorem mpWebhook_unfold (rtype dataId : Option String) (p : Payment)
    (now : JDate) (store : Store) :
    mpWebhook true rtype dataId (some p) now store =
      if rtype ≠ some "payment" ∨ jsFalsyStr dataId then store
      else if jsFalsyStr p.metaUid then store
      else fun u => if u = jsString p.metaUid
        then some (applyMerge (store u) (webhookPatch (jsString dataId) p now))
        else store u := rfl

/-- When the notification reaches the write, the handler merge-writes the patch
at document `uid` and leaves every other document alone. -/
theorem mpWebhook_write (dataId : String) (p : Payment) (now : JDate)
    (store : Store) (hdid : dataId ≠ "") (hu : jsFalsyStr p.metaUid = false) :
    mpWebhook true (some "payment") (some dataId) (some p) now store =
      fun u => if u = jsString p.metaUid
        then some (applyMerge (store u) (webhookPatch dataId p now))
        else store u := by
  rw [mpWebhook_unfold]
  rw [if_neg (by simp [jsFalsyStr, hdid]), if_neg (by simp [hu])]
  rfl

/-- C1: replaying the same notification with the same inputs (same payment,
same authoritative status and metadata, same clock instant) leaves the store
exactly as a single delivery does: the patch sets absolute values, so a
duplicate delivery does not double-extend the expiry. -/
theorem mpWebhook_idempotent (mp : Bool) (rtype dataId : Option String)
    (p : Payment) (now : JDate) (store : Store)
    (_happroved : p.status = some "approved") :
    mpWebhook mp rtype dataId (some p) now
        (mpWebhook mp rtype dataId (some p) now store) =
      mpWebhook mp rtype dataId (some p) now store := by
  cases mp with
  | false => rfl
  | true =>
    rw [mpWebhook_unfold, mpWebhook_unfold]
    by_cases hr : rtype ≠ some "payment" ∨ jsFalsyStr dataId
    · simp only [if_pos hr]
    · simp only [if_neg hr]
      by_cases hu : jsFalsyStr p.metaUid
      · simp only [if_pos hu]
      · simp only [if_neg hu]
        funext u
        by_cases huid : u = jsString p.metaUid
        · simp only [if_pos huid, applyMerge_idem]
        · simp only [if_neg huid]

/-- Witness for C1: double delivery of an approved monthly payment on an
empty store. -/
theorem mpWebhook_idempotent_witness :
    mpWebhook true (some "payment") (some "42")
        (some ⟨some "approved", some "u1", some "mensal"⟩) ⟨3, 0⟩
        (mpWebhook true (some "payment") (some "42")
          (some ⟨some "approved", some "u1", some "mensal"⟩) ⟨3, 0⟩ (fun _ => none)) =
      mpWebhook true (some "payment") (some "42")
        (some ⟨some "approved", some "u1", some "mensal"⟩) ⟨3, 0⟩ (fun _ => none) :=
  mpWebhook_idempotent true (some "payment") (some "42")
    ⟨some "approved", some "u1", some "mensal"⟩ ⟨3, 0⟩ (fun _ => none) rfl

theorem webhookPatch_nonApproved (dataId : String) (p : Payment) (now : JDate)
    (h : p.status ≠ some "approved") :
    (webhookPatch dataId p now).autorizado = none ∧
    (webhookPatch dataId p now).plano = none ∧
    (webhookPatch dataId p now).vencimento = none ∧
    (webhookPatch dataId p now).acessosPermitidos = none := by
  simp [webhookPatch, h]

/-- C4 counterexample: a `pending` payment for an existing user changes the
stored record (the `pagamento` audit subobject is rewritten), so the document
is not identical before and after. -/
theorem mpWebhook_pending_mutates_cex :
    (mpWebhook true (some "payment") (some "999")
        (some ⟨some "pending", some "u", some "mensal"⟩) ⟨0, 0⟩
        (fun v => if v = "u" then some UserDoc.empty else none)) "u" ≠
      (fun v => if v = "u" then some UserDoc.empty else none : Store) "u" := by
  decide

/-- C4 amended: on a non-`approved` authoritative status the handler does not
touch any entitlement field (`autorizado`, `plano`, `vencimento`,
`acessosPermitidos`) or any other pre-existing field, and raises no error; it
does update the `pagamento` audit subobject. -/
theorem mpWebhook_nonApproved_entitlement_frame (mp : Bool)
    (rtype dataId : Option String) (p : Payment) (now : JDate) (store : Store)
    (hstatus : p.status ≠ some "approved") (u : String) (d : UserDoc)
    (hd : store u = some d) :
    ∃ d', mpWebhook mp rtype dataId (some p) now store u = some d' ∧
      d'.autorizado = d.autorizado ∧ d'.plano = d.plano ∧
      d'.vencimento = d.vencimento ∧ d'.acessosPermitidos = d.acessosPermitidos ∧
      d'.outros = d.outros := by
  cases mp with
  | false => exact ⟨d, hd, rfl, rfl, rfl, rfl, rfl⟩
  | true =>
    rw [mpWebhook_unfold]
    by_cases hr : rtype ≠ some "payment" ∨ jsFalsyStr dataId
    · exact ⟨d, by simp only [if_pos hr]; exact hd, rfl, rfl, rfl, rfl, rfl⟩
    · by_cases hu : jsFalsyStr p.metaUid
      · exact ⟨d, by simp only [if_neg hr, if_pos hu]; exact hd, rfl, rfl, rfl, rfl, rfl⟩
      · by_cases huid : u = jsString p.metaUid
        · obtain ⟨h1, h2, h3, h4⟩ := webhookPatch_nonApproved (jsString dataId) p now hstatus
          refine ⟨applyMerge (some d) (webhookPatch (jsString dataId) p now),
            ?_, ?_, ?_, ?_, ?_, ?_⟩
          · simp only [if_neg hr, if_neg hu, if_pos huid, hd]
          · simp [applyMerge, h1]
          · simp [applyMerge, h2]
          · simp [applyMerge, h3]
          · simp [applyMerge, h4]
          · simp [applyMerge]
        · exact ⟨d, by simp only [if_neg hr, if_neg hu, if_neg huid]; exact hd,
            rfl, rfl, rfl, rfl, rfl⟩

/-- Witness for C4 at a concrete pending payment over a one-document store. -/
theorem mpWebhook_nonApproved_entitlement_frame_witness :
    ∃ d', mpWebhook true (some "payment") (some "999")
        (some ⟨some "pending", some "u", some "mensal"⟩) ⟨0, 0⟩
        (fun v => if v = "u" then some UserDoc.empty else none) "u" = some d' ∧
      d'.autorizado = UserDoc.empty.autorizado ∧ d'.plano = UserDoc.empty.plano ∧
      d'.vencimento = UserDoc.empty.vencimento ∧
      d'.acessosPermitidos = UserDoc.empty.acessosPermitidos ∧
      d'.outros = UserDoc.empty.outros :=
  mpWebhook_nonApproved_entitlement_frame true (some "payment") (some "999")
    ⟨some "pending", some "u", some "mensal"⟩ ⟨0, 0⟩
    (fun v => if v = "u" then some UserDoc.empty else none)
    (by decide) "u" UserDoc.empty (by decide)

/-- C5 counterexample: an approved payment with the unknown plan key `"foo"`
on an empty store does mutate: the handler creates/overwrites the document,
substituting the monthly catalog entry (1 month, 1 seat) while storing the raw
key. -/
theorem mpWebhook_unknownPlan_mutates_cex :
    (mpWebhook true (some "payment") (some "9")
        (some ⟨some "approved", some "u1", some "foo"⟩) ⟨7, 0⟩ (fun _ => none)) "u1" =
      some ⟨some true, some "foo", some ⟨8, 0⟩, some 1,
        some ⟨"MERCADO_PAGO", "9", "approved", ⟨7, 0⟩⟩, []⟩ := by
  decide

/-- C5 amended: a missing `metadata.uid` is ignored without mutation, but an
unrecognized plan key on an approved payment is NOT ignored: the handler
applies the patch with the monthly catalog entry as fallback (1 month, 1 seat)
while recording the raw plan key. -/
theorem mpWebhook_missingUid_noop_unknownPlan_fallback :
    (∀ (mp : Bool) (rtype dataId : Option String) (p : Payment) (now : JDate)
        (store : Store), jsFalsyStr p.metaUid = true →
        mpWebhook mp rtype dataId (some p) now store = store) ∧
    (∀ (dataId uid planKey : String) (now : JDate) (store : Store),
        dataId ≠ "" → uid ≠ "" → planKey ≠ "" → PLANS.lookup planKey = none →
        ∃ d', mpWebhook true (some "payment") (some dataId)
            (some ⟨some "approved", some uid, some planKey⟩) now store uid = some d' ∧
          d'.autorizado = some true ∧ d'.plano = some planKey ∧
          d'.vencimento = some (now.addMonths 1) ∧ d'.acessosPermitidos = some 1) := by
  constructor
  · intro mp rtype dataId p now store hu
    cases mp with
    | false => rfl
    | true =>
      rw [mpWebhook_unfold]
      by_cases hr : rtype ≠ some "payment" ∨ jsFalsyStr dataId
      · simp only [if_pos hr]
      · simp only [if_neg hr, hu, if_pos]
  · intro dataId uid planKey now store hdid hu hplan hlookup
    rw [mpWebhook_write dataId ⟨some "approved", some uid, some planKey⟩ now store hdid
      (by simp [jsFalsyStr, hu])]
    refine ⟨applyMerge (store uid)
      (webhookPatch dataId ⟨some "approved", some uid, some planKey⟩ now), ?_, ?_, ?_, ?_, ?_⟩
    · simp [jsString]
    · simp [applyMerge, webhookPatch]
    · simp [applyMerge, webhookPatch, jsOrMensal, hplan]
    · simp [applyMerge, webhookPatch, calcVencimentoByPlano, jsString, hlookup]
    · simp [applyMerge, webhookPatch, calcVencimentoByPlano, jsString, hlookup]

/-- Witness for C5: missing uid leaves an empty store unchanged; unknown plan
key `"foo"` gets the monthly fallback. -/
theorem mpWebhook_missingUid_noop_unknownPlan_fallback_witness :
    (mpWebhook true (some "payment") (some "1")
        (some ⟨some "approved", none, some "mensal"⟩) ⟨0, 0⟩ (fun _ => none) =
      (fun _ => none)) ∧
    (∃ d', mpWebhook true (some "payment") (some "9")
        (some ⟨some "approved", some "u1", some "foo"⟩) ⟨7, 0⟩ (fun _ => none) "u1" =
          some d' ∧
      d'.autorizado = some true ∧ d'.plano = some "foo" ∧
      d'.vencimento = some (JDate.addMonths ⟨7, 0⟩ 1) ∧ d'.acessosPermitidos = some 1) :=
  ⟨mpWebhook_missingUid_noop_unknownPlan_fallback.1 true (some "payment") (some "1")
      ⟨some "approved", none, some "mensal"⟩ ⟨0, 0⟩ (fun _ => none) rfl,
   mpWebhook_missingUid_noop_unknownPlan_fallback.2 "9" "u1" "foo" ⟨7, 0⟩ (fun _ => none)
      (by decide) (by decide) (by decide) (by decide)⟩

/-- C6 counterexample: an approved payment whose uid has no existing document
creates one: the handler merge-writes without any prior lookup, so the set of
existing documents is not invariant. -/
theorem mpWebhook_creates_doc_cex :
    ((fun _ => none : Store) "u1" = none) ∧
    (mpWebhook true (some "payment") (some "7")
        (some ⟨some "approved", some "u1", some "mensal"⟩) ⟨0, 0⟩
        (fun _ => none)) "u1" ≠ none := by
  exact ⟨rfl, by decide⟩

/-- C6 amended: the handler never looks the user document up; when the uid in
the metadata has no document, the merge write creates one holding exactly the
patch fields. -/
theorem mpWebhook_creates_missing_doc (dataId uid : String) (p : Payment)
    (now : JDate) (store : Store) (hdid : dataId ≠ "")
    (huid : p.metaUid = some uid) (hu : uid ≠ "") (hstore : store uid = none) :
    mpWebhook true (some "payment") (some dataId) (some p) now store uid =
      some (applyMerge none (webhookPatch dataId p now)) := by
  rw [mpWebhook_write dataId p now store hdid (by simp [jsFalsyStr, huid, hu])]
  simp [huid, jsString, hstore]

/-- Witness for C6: the created document, explicitly. -/
theorem mpWebhook_creates_missing_doc_witness :
    mpWebhook true (some "payment") (some "7")
        (some ⟨some "approved", some "u1", some "mensal"⟩) ⟨0, 0⟩
        (fun _ => none) "u1" =
      some (applyMerge none
        (webhookPatch "7" ⟨some "approved", some "u1", some "mensal"⟩ ⟨0, 0⟩)) :=
  mpWebhook_creates_missing_doc "7" "u1" ⟨some "approved", some "u1", some "mensal"⟩
    ⟨0, 0⟩ (fun _ => none) (by decide) rfl (by decide) rfl

/-- C7: an approved `mensal` (monthly) payment at instant `now` yields expiry
`now + 1` month and 1 allowed access; an approved `anual_plus` payment yields
expiry `now + 12` months and 2 allowed accesses, per the static catalog. -/
theorem mpWebhook_catalog_applied (dataId uid : String) (now : JDate)
    (store : Store) (hdid : dataId ≠ "") (hu : uid ≠ "") :
    (∃ d', mpWebhook true (some "payment") (some dataId)
        (some ⟨some "approved", some uid, some "mensal"⟩) now store uid = some d' ∧
      d'.vencimento = some (now.addMonths 1) ∧ d'.acessosPermitidos = some 1) ∧
    (∃ d', mpWebhook true (some "payment") (some dataId)
        (some ⟨some "approved", some uid, some "anual_plus"⟩) now store uid = some d' ∧
      d'.vencimento = some (now.addMonths 12) ∧ d'.acessosPermitidos = some 2) := by
  have hm : PLANS.lookup "mensal" = some ⟨"Mensal", 2499, 1, 1⟩ := by decide
  have ha : PLANS.lookup "anual_plus" = some ⟨"Anual Plus", 18999, 12, 2⟩ := by decide
  constructor
  · rw [mpWebhook_write dataId ⟨some "approved", some uid, some "mensal"⟩ now store hdid
      (by simp [jsFalsyStr, hu])]
    refine ⟨applyMerge (store uid)
      (webhookPatch dataId ⟨some "approved", some uid, some "mensal"⟩ now), ?_, ?_, ?_⟩
    · simp [jsString]
    · simp [applyMerge, webhookPatch, calcVencimentoByPlano, jsString, hm]
    · simp [applyMerge, webhookPatch, calcVencimentoByPlano, jsString, hm]
  · rw [mpWebhook_write dataId ⟨some "approved", some uid, some "anual_plus"⟩ now store hdid
      (by simp [jsFalsyStr, hu])]
    refine ⟨applyMerge (store uid)
      (webhookPatch dataId ⟨some "approved", some uid, some "anual_plus"⟩ now), ?_, ?_, ?_⟩
    · simp [jsString]
    · simp [applyMerge, webhookPatch, calcVencimentoByPlano, jsString, ha]
    · simp [applyMerge, webhookPatch, calcVencimentoByPlano, jsString, ha]

/-- Witness for C7 at a concrete instant. -/
theorem mpWebhook_catalog_applied_witness :
    (∃ d', mpWebhook true (some "payment") (some "5")
        (some ⟨some "approved", some "u9", some "mensal"⟩) ⟨4, 2⟩
        (fun _ => none) "u9" = some d' ∧
      d'.vencimento = some (JDate.addMonths ⟨4, 2⟩ 1) ∧ d'.acessosPermitidos = some 1) ∧
    (∃ d', mpWebhook true (some "payment") (some "5")
        (some ⟨some "approved", some "u9", some "anual_plus"⟩) ⟨4, 2⟩
        (fun _ => none) "u9" = some d' ∧
      d'.vencimento = some (JDate.addMonths ⟨4, 2⟩ 12) ∧ d'.acessosPermitidos = some 2) :=
  mpWebhook_catalog_applied "5" "u9" ⟨4, 2⟩ (fun _ => none) (by decide) (by decide)

/-- C8 counterexample: a token with three dot-separated segments — a "wrong
number of dot-separated segments" — is not rejected: when its first two
segments form a valid expiry.signature pair it verifies `true`, not `false`. -/
theorem verify_three_segments_true_cex :
    verifySignedToken (fun _ _ => "h") (some "k") 3 "fid" "5.h.junk" = true := by
  decide

/-- C8 amended: verification never throws (the one throwing operation,
`timingSafeEqual` on buffers of different lengths, sits inside `try/catch` and
is embedded as the length-mismatch branch) and returns `false` on every listed
failure mode — unset signing secret, empty token, token with no signature
segment (fewer than two segments), an expiry segment on which `Number()`
yields `NaN` (after whitespace trimming and the signed, hex/octal/binary,
exponent and `Infinity` forms are accounted for), a signature of the wrong
length, and an expired token.  Tokens with extra trailing segments after a
valid `expiry.signature` pair are not malformed in this sense: they verify. -/
theorem verify_fails_closed :
    (∀ (hmac : String → String → String) (now : Nat) (fid t : String),
        verifySignedToken hmac none now fid t = false) ∧
    (∀ (hmac : String → String → String) (sec : String) (now : Nat) (fid : String),
        verifySignedToken hmac (some sec) now fid "" = false) ∧
    (∀ (hmac : String → String → String) (sec : String) (now : Nat) (fid t : String),
        '.' ∉ t.data → verifySignedToken hmac (some sec) now fid t = false) ∧
    (∀ (hmac : String → String → String) (sec : String) (now : Nat) (fid e s : String),
        '.' ∉ e.data → '.' ∉ s.data → jsNumber e = none →
        verifySignedToken hmac (some sec) now fid (e ++ "." ++ s) = false) ∧
    (∀ (hmac : String → String → String) (sec : String) (now : Nat)
        (fid e s : String) (v : JsNum),
        '.' ∉ e.data → '.' ∉ s.data → jsNumber e = some v →
        s.data.length ≠ (hmac sec (fid ++ "." ++ jsNumToStr v)).data.length →
        verifySignedToken hmac (some sec) now fid (e ++ "." ++ s) = false) ∧
    (∀ (hmac : String → String → String) (sec : String) (now : Nat)
        (fid e s : String) (v : JsNum),
        '.' ∉ e.data → '.' ∉ s.data → jsNumber e = some v → jsGtNum now v = true →
        verifySignedToken hmac (some sec) now fid (e ++ "." ++ s) = false) := by
  have hunfold : ∀ (hmac : String → String → String) (sec : String) (now : Nat)
      (fid t : String), verifySignedToken hmac (some sec) now fid t =
        (if t = "" then false else verifyParts hmac sec now fid (jsSplitDot t)) :=
    fun _ _ _ _ _ => rfl
  refine ⟨fun _ _ _ _ => rfl, fun _ _ _ _ => rfl, ?_, ?_, ?_, ?_⟩
  · intro hmac sec now fid t hdot
    by_cases ht : t = ""
    · subst ht; rfl
    · rw [hunfold, if_neg ht]
      unfold jsSplitDot
      rw [splitDotsL_no_dot t.data hdot]
      rfl
  · intro hmac sec now fid e s hde hds hnum
    rw [hunfold, if_neg (append_dot_ne_empty _ _), jsSplitDot_pair _ _ hde hds]
    simp [verifyParts, hnum]
  · intro hmac sec now fid e s v hde hds hnum hlen
    rw [hunfold, if_neg (append_dot_ne_empty _ _), jsSplitDot_pair _ _ hde hds]
    rw [Bool.eq_false_iff]
    intro ht
    obtain ⟨v', heq', _, _, _, hsig⟩ :=
      (verifyParts_true_iff hmac sec now fid e s []).mp ht
    obtain rfl : v' = v := Option.some.inj (heq'.symm.trans hnum)
    exact hlen (congrArg (fun t : String => t.data.length) hsig)
  · intro hmac sec now fid e s v hde hds hnum hexp
    rw [hunfold, if_neg (append_dot_ne_empty _ _), jsSplitDot_pair _ _ hde hds]
    rw [Bool.eq_false_iff]
    intro ht
    obtain ⟨v', heq', _, _, hnow, _⟩ :=
      (verifyParts_true_iff hmac sec now fid e s []).mp ht
    obtain rfl : v' = v := Option.some.inj (heq'.symm.trans hnum)
    rw [hexp] at hnow
    exact absurd hnow (by simp)

/-- Witness for C8: one concrete instance of every failure mode. -/
theorem verify_fails_closed_witness :
    verifySignedToken (fun _ _ => "h") none 3 "fid" "5.h" = false ∧
    verifySignedToken (fun _ _ => "h") (some "k") 3 "fid" "" = false ∧
    verifySignedToken (fun _ _ => "h") (some "k") 3 "fid" "justonesegment" = false ∧
    verifySignedToken (fun _ _ => "h") (some "k") 3 "fid" ("abc" ++ "." ++ "h") = false ∧
    verifySignedToken (fun _ _ => "h") (some "k") 3 "fid" ("5" ++ "." ++ "hh") = false ∧
    verifySignedToken (fun _ _ => "h") (some "k") 9 "fid" ("5" ++ "." ++ "h") = false :=
  ⟨verify_fails_closed.1 (fun _ _ => "h") 3 "fid" "5.h",
   verify_fails_closed.2.1 (fun _ _ => "h") "k" 3 "fid",
   verify_fails_closed.2.2.1 (fun _ _ => "h") "k" 3 "fid" "justonesegment" (by decide),
   verify_fails_closed.2.2.2.1 (fun _ _ => "h") "k" 3 "fid" "abc" "h"
     (by decide) (by decide) (by decide),
   verify_fails_closed.2.2.2.2.1 (fun _ _ => "h") "k" 3 "fid" "5" "hh" (JsNum.nat 5)
     (by decide) (by decide) (by decide) (by decide),
   verify_fails_closed.2.2.2.2.2 (fun _ _ => "h") "k" 9 "fid" "5" "h" (JsNum.nat 5)
     (by decide) (by decide) (by decide) (by decide)⟩

end Backend
